import Mathlib

/-!
Verification of the paragrid core (`src/python/paragrid.py`,
`src/python/ancestor_entry.py`, `src/python/depth_aware_entry.py`) against its
natural-language specification.

The Python data model and operations are shallowly embedded: frozen dataclasses
become structures/inductives, `dict[str, Grid]` (insertion ordered) becomes an
association list, `fractions.Fraction` becomes `ℚ`, and the `while depth <
max_depth` loops become fuel-indexed recursion where the fuel plays the role of
`max_depth - depth`.
-/

namespace Paragrid

/-- Cardinal direction for traversal (`Direction` in paragrid.py). -/
inductive Direction : Type
  | N
  | S
  | E
  | W
deriving DecidableEq, Repr

/-- A grid cell: `Empty`, `Concrete(id)` or `Ref(grid_id, is_primary)` where
`is_primary = none` means auto-determine. -/
inductive Cell : Type
  | empty
  | concrete (id : String)
  | ref (gridId : String) (isPrimary : Option Bool)
deriving DecidableEq, Repr

/-- A 2D grid of cells (`Grid` in paragrid.py): identity plus a matrix of
cells stored row-major. -/
structure Grid : Type where
  id : String
  cells : List (List Cell)
deriving DecidableEq, Repr

/-- `Grid.rows`: number of rows (`len(self.cells)`). -/
def Grid.rows (g : Grid) : Nat := g.cells.length

/-- `Grid.cols`: `len(self.cells[0]) if self.cells else 0`. -/
def Grid.cols (g : Grid) : Nat :=
  match g.cells with
  | [] => 0
  | r :: _ => r.length

/-- `GridStore = dict[str, Grid]`: an insertion-ordered mapping, embedded as an
association list; `store.values()` iterates in list order, exactly like the
insertion order of a Python dict. -/
abbrev GridStore : Type := List (String × Grid)

/-- Dict lookup `store[grid_id]` as an `Option` (first entry with the key). -/
def storeGet? (store : GridStore) (gridId : String) : Option Grid :=
  (store.find? (fun e => e.1 == gridId)).map (fun e => e.2)

/-- Total variant of `store[grid_id]`; the source raises `KeyError` on a
missing id (the spec calls dangling references a fatal error), the embedding
returns an inert empty grid instead. -/
def storeGet (store : GridStore) (gridId : String) : Grid :=
  (storeGet? store gridId).getD ⟨gridId, []⟩

/-- A position within the grid structure (`CellPosition`). Rows and columns
are natural numbers; the Python ints are non-negative at every use site. -/
structure CellPosition : Type where
  gridId : String
  row : Nat
  col : Nat
deriving DecidableEq, Repr

/-- `RefStrategy` enum. -/
inductive RefStrategy : Type
  | TRY_ENTER_FIRST
  | PUSH_FIRST
deriving DecidableEq, Repr

/-- `RuleSet` dataclass (single field, default `PUSH_FIRST`). -/
structure RuleSet : Type where
  refStrategy : RefStrategy
deriving DecidableEq, Repr

/-- The default `RuleSet()`. -/
def defaultRules : RuleSet := ⟨RefStrategy.PUSH_FIRST⟩

/-- `TerminationReason` enum. -/
inductive TerminationReason : Type
  | EDGE_REACHED
  | ENTRY_CYCLE_DETECTED
  | EXIT_CYCLE_DETECTED
  | PATH_CYCLE_DETECTED
  | ENTRY_DENIED
  | MAX_DEPTH_REACHED
  | STOP_TAG
deriving DecidableEq, Repr

/-- The tagging callback `TagFn: Cell -> set[str]`; a list of tags embeds the
set (only membership of `"stop"` is ever inspected). -/
abbrev TagFn : Type := Cell → List String

/-- Absence of a tag function (`tag_fn=None`): no cell carries any tag. -/
def noTags : TagFn := fun _ => []

/-- Direction deltas `(row_delta, col_delta)` shared by all traversal code. -/
def delta (d : Direction) : Int × Int :=
  match d with
  | .N => (-1, 0)
  | .S => (1, 0)
  | .E => (0, 1)
  | .W => (0, -1)

/-- `get_cell(store, pos)`: cell lookup with an `Empty` default where the
source would raise on an out-of-range position or missing grid. -/
def cellAt (g : Grid) (r c : Nat) : Cell :=
  ((g.cells.getD r []).getD c Cell.empty)

/-- `get_cell(store, pos)` from paragrid.py. -/
def get_cell (store : GridStore) (pos : CellPosition) : Cell :=
  cellAt (storeGet store pos.gridId) pos.row pos.col

/-- A position is in bounds of its store: its grid exists under that key and
row/column index into the stored matrix. -/
def inBoundsB (store : GridStore) (pos : CellPosition) : Bool :=
  match storeGet? store pos.gridId with
  | none => false
  | some g => decide (pos.row < g.cells.length) &&
      decide (pos.col < (g.cells.getD pos.row []).length)

end Paragrid

namespace AncestorEntry

/-! Embedding of `src/python/ancestor_entry.py` over exact rationals. -/

open Paragrid

/-- `compute_cell_center_fraction`: the center of cell `i` out of `d` is
`(i+1)/(d+1)`. -/
def compute_cell_center_fraction (cellIndex dimension : Nat) : ℚ :=
  ((cellIndex : ℚ) + 1) / ((dimension : ℚ) + 1)

/-- `compute_cell_extent`: the `(start, end)` interval of cell `i` in `[0,1]`;
boundaries are midpoints between adjacent centers, extreme cells reach 0/1. -/
def compute_cell_extent (cellIndex dimension : Nat) : ℚ × ℚ :=
  if dimension = 1 then (0, 1)
  else
    let lo : ℚ :=
      if cellIndex = 0 then 0
      else ((cellIndex : ℚ) / ((dimension : ℚ) + 1)
            + ((cellIndex : ℚ) + 1) / ((dimension : ℚ) + 1)) / 2
    let hi : ℚ :=
      if cellIndex = dimension - 1 then 1
      else (((cellIndex : ℚ) + 1) / ((dimension : ℚ) + 1)
            + ((cellIndex : ℚ) + 2) / ((dimension : ℚ) + 1)) / 2
    (lo, hi)

/-- `map_fraction_through_parent`: linearly map the child's `[0,1]` onto the
parent cell's extent. -/
def map_fraction_through_parent (localFraction : ℚ)
    (parentCellIndex parentDimension : Nat) : ℚ :=
  let se := compute_cell_extent parentCellIndex parentDimension
  se.1 + localFraction * (se.2 - se.1)

/-- `map_fraction_to_child`: inverse of `map_fraction_through_parent`, clamped
to `[0,1]` (and mapping a degenerate extent to 1/2). -/
def map_fraction_to_child (parentFraction : ℚ)
    (parentCellIndex parentDimension : Nat) : ℚ :=
  let se := compute_cell_extent parentCellIndex parentDimension
  let extent := se.2 - se.1
  if extent = 0 then 1 / 2
  else
    let loc := (parentFraction - se.1) / extent
    if loc < 0 then 0
    else if loc > 1 then 1
    else loc

/-- One fold step of `find_nearest_cell`'s linear scan: keep the running
`(best_index, best_distance)` pair, replacing it only on strict improvement. -/
def nearestStep (fraction : ℚ) (dimension : Nat) (acc : Nat × ℚ) (i : Nat) :
    Nat × ℚ :=
  let dist := |fraction - compute_cell_center_fraction i dimension|
  if dist < acc.2 then (i, dist) else acc

/-- `find_nearest_cell`: index of the cell whose center is nearest to
`fraction` (first such index wins ties); dimension 1 short-circuits to 0. -/
def find_nearest_cell (fraction : ℚ) (dimension : Nat) : Nat :=
  if dimension = 1 then 0
  else
    ((List.range dimension).foldl (nearestStep fraction dimension)
      (0, |fraction - compute_cell_center_fraction 0 dimension|)).1

/-- `dimension_attr` selector (`'rows'` / `'cols'`). -/
inductive DimAttr : Type
  | rows
  | cols
deriving DecidableEq, Repr

/-- `getattr(grid, dimension_attr)`. -/
def dimOf (store : GridStore) (gridId : String) (attr : DimAttr) : Nat :=
  match attr with
  | .rows => (storeGet store gridId).rows
  | .cols => (storeGet store gridId).cols

/-- The `ref_row if dimension_attr == 'rows' else ref_col` selection. -/
def idxOf (refRow refCol : Nat) (attr : DimAttr) : Nat :=
  match attr with
  | .rows => refRow
  | .cols => refCol

end AncestorEntry

namespace Paragrid

/-! Primary reference resolution (`find_primary_ref` in paragrid.py). -/

/-- The deterministic scan order of `find_primary_ref`: all `(grid.id, row,
col, cell)` tuples, grids in store (insertion) order, then row-major within a
grid. -/
def storeScan (store : GridStore) : List (String × Nat × Nat × Cell) :=
  store.flatMap (fun e =>
    (e.2.cells.enum).flatMap (fun rw =>
      (rw.2.enum).map (fun cl => (e.2.id, rw.1, cl.1, cl.2))))

/-- Does `cell` reference `target` with an explicit `is_primary=True` mark? -/
def isExplicitPrimaryTo (target : String) (cell : Cell) : Bool :=
  match cell with
  | .ref gid (some true) => gid == target
  | _ => false

/-- Does `cell` reference `target` at all? -/
def isRefTo (target : String) (cell : Cell) : Bool :=
  match cell with
  | .ref gid _ => gid == target
  | _ => false

/-- `find_primary_ref(store, target_grid_id)`: first scan for an explicitly
marked primary reference to the target, then fall back to the first reference
found, else `None`. -/
def find_primary_ref (store : GridStore) (targetGridId : String) :
    Option (String × Nat × Nat) :=
  match (storeScan store).find? (fun e => isExplicitPrimaryTo targetGridId e.2.2.2) with
  | some e => some (e.1, e.2.1, e.2.2.1)
  | none =>
    match (storeScan store).find? (fun e => isRefTo targetGridId e.2.2.2) with
    | some e => some (e.1, e.2.1, e.2.2.1)
    | none => none

end Paragrid

namespace AncestorEntry

open Paragrid

/-- The `find_primary_ref_fn` callback type of ancestor_entry.py. -/
abbrev FindPrimaryRefFn : Type := GridStore → String → Option (String × Nat × Nat)

/-- The climb loop of `compute_entry_from_ancestor_fraction`: follow primary
references from `current` upward, recording `(child, parent, ref_row,
ref_col)` hops, until the optional ancestor or a root is reached.  The Python
loop is unbounded (it diverges on a cyclic primary-reference chain), so the
embedding is fuel-indexed and returns `none` where the source never returns.
Hops are accumulated by consing, which directly yields the ancestor-first
order the source obtains via `path.reverse()`. -/
def buildRefPath (store : GridStore) (fn : FindPrimaryRefFn)
    (ancestorGridId : Option String) :
    Nat → String → List (String × String × Nat × Nat) →
    Option (List (String × String × Nat × Nat))
  | 0, _, _ => none
  | fuel + 1, current, acc =>
    if ancestorGridId = some current then some acc
    else
      match fn store current with
      | none => some acc
      | some (parentGridId, refRow, refCol) =>
        buildRefPath store fn ancestorGridId fuel parentGridId
          ((current, parentGridId, refRow, refCol) :: acc)

/-- The descent loop of `compute_entry_from_ancestor_fraction`: inverse-map the
fraction through each recorded hop, ancestor-first. -/
def descendFraction (store : GridStore) (attr : DimAttr)
    (path : List (String × String × Nat × Nat)) (fraction : ℚ) : ℚ :=
  path.foldl
    (fun fr hop =>
      map_fraction_to_child fr (idxOf hop.2.2.1 hop.2.2.2 attr)
        (dimOf store hop.2.1 attr))
    fraction

/-- `compute_entry_from_ancestor_fraction`: build the hop chain from the
target up to the ancestor, walk it downward inverse-mapping the fraction, and
convert the result to a cell index with `find_nearest_cell`. -/
def compute_entry_from_ancestor_fraction (store : GridStore)
    (fn : FindPrimaryRefFn) (fuel : Nat) (targetGridId : String)
    (ancestorFraction : ℚ) (attr : DimAttr) (ancestorGridId : Option String) :
    Option Nat :=
  (buildRefPath store fn ancestorGridId fuel targetGridId []).map
    (fun path =>
      find_nearest_cell (descendFraction store attr path ancestorFraction)
        (dimOf store targetGridId attr))

/-- Modelled from the spec: the spec's description of the final index
conversion in `entry_fraction_to_child` — "converts the resulting fraction
into a concrete cell index via floor-to-index with clamping to
`[0, dimension-1]`" — which is *not* what `find_nearest_cell` implements; this
definition exists only to compare the two. -/
def floor_to_index_spec (fraction : ℚ) (dimension : Nat) : Int :=
  max 0 (min (Int.floor (fraction * (dimension : ℚ))) ((dimension : Int) - 1))

end AncestorEntry

namespace DepthAware

/-! Embedding of `src/python/depth_aware_entry.py` (the middle-of-edge entry
helper cited by the spec's fallback-entry rule). -/

open Paragrid

/-- `calculate_standard_entry_position(direction, grid_rows, grid_cols)`:
middle-of-edge entry for the given direction. -/
def calculate_standard_entry_position (direction : Direction)
    (gridRows gridCols : Nat) : Nat × Nat :=
  match direction with
  | .E => (gridRows / 2, 0)
  | .W => (gridRows / 2, gridCols - 1)
  | .S => (0, gridCols / 2)
  | .N => (gridRows - 1, gridCols / 2)

end DepthAware

namespace Paragrid

/-! Navigator-level helpers and the push search of paragrid.py. -/

/-- `try_enter(store, grid_id, direction, rules)`: middle-of-edge entry into
the referenced grid, or `None` when the grid does not exist. -/
def try_enter (store : GridStore) (gridId : String) (direction : Direction)
    (rules : RuleSet) : Option CellPosition :=
  match storeGet? store gridId with
  | none => none
  | some grid =>
    match direction with
    | .E => some ⟨gridId, grid.rows / 2, 0⟩
    | .W => some ⟨gridId, grid.rows / 2, grid.cols - 1⟩
    | .S => some ⟨gridId, 0, grid.cols / 2⟩
    | .N => some ⟨gridId, grid.rows - 1, grid.cols / 2⟩

/-- Visited-set keys `(grid_id, row, col)`. -/
abbrev Key : Type := String × Nat × Nat

/-- The key of a position. -/
def CellPosition.key (p : CellPosition) : Key := (p.gridId, p.row, p.col)

/-- Is the candidate next position out of the grid's bounds?  Mirrors the
`next_row < 0 or next_row >= rows or next_col < 0 or next_col >= cols`
checks, with the candidate computed in `Int` exactly as Python does. -/
def outOfBounds (g : Grid) (r c : Int) : Bool :=
  r < 0 || r ≥ (g.rows : Int) || c < 0 || c ≥ (g.cols : Int)

/-- `_follow_exit_chain`: starting at a landing position, keep exiting through
the primary reference of each `Ref` cell landed on, until a non-`Ref` cell, the
root, or a revisited `(grid,row,col)` (cycle) is found.  Fuel stands for
`max_depth`; exhaustion returns `hit_cycle = True` like the source.  `rules`
is accepted and unused, as in the source. -/
def follow_exit_chain (store : GridStore) (direction : Direction)
    (rules : RuleSet) :
    Nat → List Key → CellPosition → Option CellPosition × Bool
  | 0, _, current => (some current, true)
  | fuel + 1, visited, current =>
    if visited.contains current.key then (some current, true)
    else
      match get_cell store current with
      | .ref gid _ =>
        match find_primary_ref store gid with
        | none => (none, false)
        | some (parentGridId, parentRow, parentCol) =>
          let parentGrid := storeGet store parentGridId
          let dd := delta direction
          let exitRow : Int := (parentRow : Int) + dd.1
          let exitCol : Int := (parentCol : Int) + dd.2
          let next : CellPosition :=
            if outOfBounds parentGrid exitRow exitCol then
              ⟨parentGridId, parentRow, parentCol⟩
            else ⟨parentGridId, exitRow.toNat, exitCol.toNat⟩
          follow_exit_chain store direction rules fuel
            (current.key :: visited) next
      | _ => (some current, false)

/-- `_follow_enter_chain`: keep entering `Ref` cells via `try_enter` until a
non-`Ref` cell, a denial (`none`), or a revisited position (cycle). -/
def follow_enter_chain (store : GridStore) (direction : Direction)
    (rules : RuleSet) :
    Nat → List Key → CellPosition → Option CellPosition × Bool
  | 0, _, current => (some current, true)
  | fuel + 1, visited, current =>
    if visited.contains current.key then (some current, true)
    else
      match get_cell store current with
      | .ref gid _ =>
        match try_enter store gid direction rules with
        | none => (none, false)
        | some next =>
          follow_enter_chain store direction rules fuel
            (current.key :: visited) next
      | _ => (some current, false)

end Paragrid

namespace Paragrid

/-! Path application (`apply_push`). -/

/-- The rotation `[c0, ..., cn] -> [cn, c0, ..., c(n-1)]`
(`rotated = [cells[-1]] + cells[:-1]`; the source raises on an empty path,
which never reaches it). -/
def rotateCells (cells : List Cell) : List Cell :=
  match cells.getLast? with
  | none => []
  | some last => last :: cells.dropLast

/-- The per-grid update list that `apply_push` accumulates in its
`defaultdict`: the `(row, col, rotated_cell)` triples of the path entries
lying in grid `gridKey`, in path order. -/
def updatesFor (path : List (CellPosition × Cell)) (gridKey : String) :
    List (Nat × Nat × Cell) :=
  ((path.map Prod.fst).zip (rotateCells (path.map Prod.snd))).filterMap
    (fun pr =>
      if pr.1.gridId == gridKey then some (pr.1.row, pr.1.col, pr.2) else none)

/-- Write one cell of a grid (`mutable_cells[row][col] = new_cell` on the
copied matrix); out-of-range writes are no-ops where the source raises. -/
def setCell (g : Grid) (r c : Nat) (cell : Cell) : Grid :=
  ⟨g.id, g.cells.set r ((g.cells.getD r []).set c cell)⟩

/-- Apply one grid's update list in order, as the source's inner loop does. -/
def applyGridUpdates (g : Grid) (us : List (Nat × Nat × Cell)) : Grid :=
  us.foldl (fun acc u => setCell acc u.1 u.2.1 u.2.2) g

/-- `apply_push(store, path)`: rotate the path's cells and rebuild only the
grids that received updates, leaving every other entry untouched
(`new_store = store.copy()` plus reassignment of the affected keys). -/
def apply_push (store : GridStore) (path : List (CellPosition × Cell)) :
    GridStore :=
  store.map (fun e =>
    let us := updatesFor path e.1
    if us.isEmpty then e else (e.1, applyGridUpdates e.2 us))

/-! The simple (non-backtracking) push traversal. -/

/-- Main loop of `push_traverse_simple`, fuel-indexed (`fuel` is
`max_depth - depth` at the loop head). -/
def pushTraverseSimpleAux (store : GridStore) (start : CellPosition)
    (direction : Direction) (rules : RuleSet) (tagFn : TagFn) :
    Nat → List (CellPosition × Cell) → List Key → CellPosition →
    List (CellPosition × Cell) × TerminationReason
  | 0, path, _, _ => (path, .MAX_DEPTH_REACHED)
  | fuel + 1, path, visited, current =>
    let dd := delta direction
    let grid := storeGet store current.gridId
    let nr : Int := (current.row : Int) + dd.1
    let nc : Int := (current.col : Int) + dd.2
    let moved : (List (CellPosition × Cell) × TerminationReason) ⊕ CellPosition :=
      if outOfBounds grid nr nc then
        match find_primary_ref store current.gridId with
        | none => Sum.inl (path, .EDGE_REACHED)
        | some (parentGridId, parentRow, parentCol) =>
          let parentGrid := storeGet store parentGridId
          let nr2 : Int := (parentRow : Int) + dd.1
          let nc2 : Int := (parentCol : Int) + dd.2
          if outOfBounds parentGrid nr2 nc2 then
            match follow_exit_chain store direction rules fuel []
                ⟨parentGridId, parentRow, parentCol⟩ with
            | (none, _) => Sum.inl (path, .EDGE_REACHED)
            | (some finalPos, hitCycle) =>
              if hitCycle then Sum.inl (path, .EXIT_CYCLE_DETECTED)
              else
                let nextGrid := storeGet store finalPos.gridId
                let nr3 : Int := (finalPos.row : Int) + dd.1
                let nc3 : Int := (finalPos.col : Int) + dd.2
                if outOfBounds nextGrid nr3 nc3 then Sum.inl (path, .EDGE_REACHED)
                else Sum.inr ⟨finalPos.gridId, nr3.toNat, nc3.toNat⟩
          else Sum.inr ⟨parentGridId, nr2.toNat, nc2.toNat⟩
      else Sum.inr ⟨current.gridId, nr.toNat, nc.toNat⟩
    match moved with
    | Sum.inl result => result
    | Sum.inr cur =>
      if visited.contains cur.key then
        -- the source distinguishes "cycle to start" from "cycle elsewhere"
        -- in comments only: both branches return PATH_CYCLE_DETECTED
        if cur = start then (path, .PATH_CYCLE_DETECTED)
        else (path, .PATH_CYCLE_DETECTED)
      else
        let cell := get_cell store cur
        if (tagFn cell).contains "stop" then (path, .STOP_TAG)
        else
          match cell with
          | Cell.ref gid _ =>
            match rules.refStrategy with
            | .PUSH_FIRST =>
              pushTraverseSimpleAux store start direction rules tagFn fuel
                (path ++ [(cur, cell)]) (cur.key :: visited) cur
            | .TRY_ENTER_FIRST =>
              match try_enter store gid direction rules with
              | none =>
                pushTraverseSimpleAux store start direction rules tagFn fuel
                  (path ++ [(cur, cell)]) (cur.key :: visited) cur
              | some entryPos =>
                match follow_enter_chain store direction rules fuel [] entryPos with
                | (none, _) => (path, .ENTRY_DENIED)
                | (some finalPos, hitCycle) =>
                  if hitCycle then (path, .ENTRY_CYCLE_DETECTED)
                  else
                    let finalCell := get_cell store finalPos
                    if (tagFn finalCell).contains "stop" then (path, .STOP_TAG)
                    else
                      let path2 := path ++ [(finalPos, finalCell)]
                      if finalCell = Cell.empty then (path2, .EDGE_REACHED)
                      else
                        pushTraverseSimpleAux store start direction rules tagFn
                          fuel path2 (finalPos.key :: visited) finalPos
          | _ =>
            let path2 := path ++ [(cur, cell)]
            if cell = Cell.empty then (path2, .EDGE_REACHED)
            else
              pushTraverseSimpleAux store start direction rules tagFn fuel
                path2 (cur.key :: visited) cur

/-- `push_traverse_simple(store, start, direction, rules, tag_fn, max_depth)`. -/
def push_traverse_simple (store : GridStore) (start : CellPosition)
    (direction : Direction) (rules : RuleSet) (tagFn : TagFn) (maxDepth : Nat) :
    List (CellPosition × Cell) × TerminationReason :=
  let startCell := get_cell store start
  if (tagFn startCell).contains "stop" then ([], .STOP_TAG)
  else
    pushTraverseSimpleAux store start direction rules tagFn maxDepth
      [(start, startCell)] [start.key] start

/-! The backtracking push traversal. -/

/-- The `"portal"` / `"solid"` strategy strings of the backtracking search. -/
inductive Strategy : Type
  | portal
  | solid
deriving DecidableEq, Repr

/-- `DecisionPoint`: snapshot of the search state at a Ref-handling choice.
`fuelAtDecision` is the fuel equivalent of `depth_at_decision`. -/
structure DecisionPoint : Type where
  refPosition : CellPosition
  refCell : Cell
  pathSnapshot : List (CellPosition × Cell)
  visitedSnapshot : List Key
  fuelAtDecision : Nat
  strategyUsed : Strategy
deriving DecidableEq, Repr

/-- Result of one bounded run of the backtracking loop body: either the
traversal finished, or `_restore_from_decision` asked to resume from a popped
decision point (with `skip_movement = True`). -/
inductive PtbOutcome : Type
  | done (result : List (CellPosition × Cell) × TerminationReason)
  | backtrack (fuel : Nat) (path : List (CellPosition × Cell))
      (visited : List Key) (stack : List DecisionPoint)
      (altMap : List (Key × Strategy)) (current : CellPosition)
deriving Repr

/-- The backtrack-or-fail step shared by every failure site: when the stack is
non-empty and backtracking budget remains, pop the top decision, mark its Ref
for the alternative strategy and restore the snapshot; otherwise surface the
failure reason (`_restore_from_decision` plus its guard). -/
def tryBacktrack (btRem : Nat) (stack : List DecisionPoint)
    (altMap : List (Key × Strategy)) (path : List (CellPosition × Cell))
    (reason : TerminationReason) : PtbOutcome :=
  match btRem, stack with
  | _ + 1, d :: rest =>
    let alt : Strategy :=
      match d.strategyUsed with
      | .portal => .solid
      | .solid => .portal
    PtbOutcome.backtrack d.fuelAtDecision d.pathSnapshot d.visitedSnapshot rest
      ((d.refPosition.key, alt) :: altMap) d.refPosition
  | _, _ => PtbOutcome.done (path, reason)

/-- Main loop of `push_traverse_backtracking` between two backtracks: runs
until it finishes or requests a restore.  `btRem` is the remaining backtrack
budget (`max_backtrack_depth - backtrack_count`); the fuel-0 branch mirrors
loop exit at `depth = max_depth` (where the source, with decisions pending,
re-invokes itself with mismatched arguments — a `TypeError` in Python,
unreachable in any run this file evaluates). -/
def ptbInner (store : GridStore) (start : CellPosition) (direction : Direction)
    (rules : RuleSet) (tagFn : TagFn) (btRem : Nat) :
    Nat → Bool → List (CellPosition × Cell) → List Key →
    List DecisionPoint → List (Key × Strategy) → CellPosition → PtbOutcome
  | 0, _, path, _, _, _, _ => PtbOutcome.done (path, .MAX_DEPTH_REACHED)
  | fuel + 1, skipMovement, path, visited, stack, altMap, current =>
    let dd := delta direction
    let moved : PtbOutcome ⊕ CellPosition :=
      if skipMovement then Sum.inr current
      else
        let grid := storeGet store current.gridId
        let nr : Int := (current.row : Int) + dd.1
        let nc : Int := (current.col : Int) + dd.2
        if outOfBounds grid nr nc then
          match find_primary_ref store current.gridId with
          | none => Sum.inl (PtbOutcome.done (path, .EDGE_REACHED))
          | some (parentGridId, parentRow, parentCol) =>
            let parentGrid := storeGet store parentGridId
            let nr2 : Int := (parentRow : Int) + dd.1
            let nc2 : Int := (parentCol : Int) + dd.2
            if outOfBounds parentGrid nr2 nc2 then
              match follow_exit_chain store direction rules fuel []
                  ⟨parentGridId, parentRow, parentCol⟩ with
              | (none, _) => Sum.inl (PtbOutcome.done (path, .EDGE_REACHED))
              | (some finalPos, hitCycle) =>
                if hitCycle then
                  Sum.inl (tryBacktrack btRem stack altMap path .EXIT_CYCLE_DETECTED)
                else
                  let nextGrid := storeGet store finalPos.gridId
                  let nr3 : Int := (finalPos.row : Int) + dd.1
                  let nc3 : Int := (finalPos.col : Int) + dd.2
                  if outOfBounds nextGrid nr3 nc3 then
                    Sum.inl (PtbOutcome.done (path, .EDGE_REACHED))
                  else Sum.inr ⟨finalPos.gridId, nr3.toNat, nc3.toNat⟩
            else Sum.inr ⟨parentGridId, nr2.toNat, nc2.toNat⟩
        else Sum.inr ⟨current.gridId, nr.toNat, nc.toNat⟩
    match moved with
    | Sum.inl out => out
    | Sum.inr cur =>
      if visited.contains cur.key then
        if cur = start then PtbOutcome.done (path, .PATH_CYCLE_DETECTED)
        else tryBacktrack btRem stack altMap path .PATH_CYCLE_DETECTED
      else
        let cell := get_cell store cur
        if (tagFn cell).contains "stop" then
          tryBacktrack btRem stack altMap path .STOP_TAG
        else
          match cell with
          | Cell.ref gid _ =>
            let strategy : Strategy :=
              match altMap.find? (fun a => a.1 == cur.key) with
              | some a => a.2
              | none =>
                match rules.refStrategy with
                | .TRY_ENTER_FIRST => Strategy.portal
                | .PUSH_FIRST => Strategy.solid
            match strategy with
            | .portal =>
              match try_enter store gid direction rules with
              | some entryPos =>
                let stack2 : List DecisionPoint :=
                  ⟨cur, cell, path, visited, fuel, .portal⟩ :: stack
                match follow_enter_chain store direction rules fuel [] entryPos with
                | (none, _) => tryBacktrack btRem stack2 altMap path .ENTRY_DENIED
                | (some finalPos, hitCycle) =>
                  if hitCycle then
                    tryBacktrack btRem stack2 altMap path .ENTRY_CYCLE_DETECTED
                  else
                    let finalCell := get_cell store finalPos
                    if (tagFn finalCell).contains "stop" then
                      tryBacktrack btRem stack2 altMap path .STOP_TAG
                    else
                      let path2 := path ++ [(finalPos, finalCell)]
                      if finalCell = Cell.empty then
                        PtbOutcome.done (path2, .EDGE_REACHED)
                      else
                        ptbInner store start direction rules tagFn btRem fuel
                          false path2 (finalPos.key :: visited) stack2 altMap
                          finalPos
              | none =>
                ptbInner store start direction rules tagFn btRem fuel false
                  (path ++ [(cur, cell)]) (cur.key :: visited) stack altMap cur
            | .solid =>
              let stack2 : List DecisionPoint :=
                ⟨cur, cell, path, visited, fuel, .solid⟩ :: stack
              ptbInner store start direction rules tagFn btRem fuel false
                (path ++ [(cur, cell)]) (cur.key :: visited) stack2 altMap cur
          | _ =>
            let path2 := path ++ [(cur, cell)]
            if cell = Cell.empty then PtbOutcome.done (path2, .EDGE_REACHED)
            else
              ptbInner store start direction rules tagFn btRem fuel false path2
                (cur.key :: visited) stack altMap cur

/-- Drives `ptbInner`, consuming one unit of backtrack budget per restore
(`backtrack_count += 1`); the zero-budget fallback branch is unreachable
because `tryBacktrack` never emits a restore with a zero budget. -/
def ptbOuter (store : GridStore) (start : CellPosition) (direction : Direction)
    (rules : RuleSet) (tagFn : TagFn) :
    Nat → Nat → Bool → List (CellPosition × Cell) → List Key →
    List DecisionPoint → List (Key × Strategy) → CellPosition →
    List (CellPosition × Cell) × TerminationReason
  | 0, fuel, skip, path, visited, stack, altMap, current =>
    match ptbInner store start direction rules tagFn 0 fuel skip path visited
        stack altMap current with
    | .done r => r
    | .backtrack _ p _ _ _ _ => (p, .MAX_DEPTH_REACHED)
  | b + 1, fuel, skip, path, visited, stack, altMap, current =>
    match ptbInner store start direction rules tagFn (b + 1) fuel skip path
        visited stack altMap current with
    | .done r => r
    | .backtrack fuel2 path2 visited2 stack2 altMap2 current2 =>
      ptbOuter store start direction rules tagFn b fuel2 true path2 visited2
        stack2 altMap2 current2

/-- `push_traverse_backtracking(store, start, direction, rules, tag_fn,
max_depth, max_backtrack_depth)`. -/
def push_traverse_backtracking (store : GridStore) (start : CellPosition)
    (direction : Direction) (rules : RuleSet) (tagFn : TagFn)
    (maxDepth maxBacktrackDepth : Nat) :
    List (CellPosition × Cell) × TerminationReason :=
  let startCell := get_cell store start
  if (tagFn startCell).contains "stop" then ([], .STOP_TAG)
  else
    ptbOuter store start direction rules tagFn maxBacktrackDepth maxDepth false
      [(start, startCell)] [start.key] [] [] start

/-- The success check shared verbatim by `push` and `push_simple`: succeed on
`EDGE_REACHED` with the path ending at `Empty`, or on `PATH_CYCLE_DETECTED`
with a path of length at least 2 whose first element is the start. -/
def pushSuccessCheck (store : GridStore) (start : CellPosition)
    (pr : List (CellPosition × Cell) × TerminationReason) : Option GridStore :=
  match pr.2 with
  | .EDGE_REACHED =>
    match pr.1.getLast? with
    | some (_, Cell.empty) => some (apply_push store pr.1)
    | _ => none
  | .PATH_CYCLE_DETECTED =>
    match pr.1 with
    | [] => none
    | (p0, _) :: _ =>
      if 2 ≤ pr.1.length ∧ p0 = start then some (apply_push store pr.1)
      else none
  | _ => none

/-- `push`: backtracking traversal followed by the success check; `None`
("no store is produced") models a failed push. -/
def push (store : GridStore) (start : CellPosition) (direction : Direction)
    (rules : RuleSet) (tagFn : TagFn) (maxDepth maxBacktrackDepth : Nat) :
    Option GridStore :=
  pushSuccessCheck store start
    (push_traverse_backtracking store start direction rules tagFn maxDepth
      maxBacktrackDepth)

/-- `push_simple`: non-backtracking traversal followed by the same check. -/
def push_simple (store : GridStore) (start : CellPosition)
    (direction : Direction) (rules : RuleSet) (tagFn : TagFn) (maxDepth : Nat) :
    Option GridStore :=
  pushSuccessCheck store start
    (push_traverse_simple store start direction rules tagFn maxDepth)

end Paragrid

namespace Paragrid

/-! Concrete stores used by the claim theorems. -/

/-- A 1×3 grid whose first cell is a primary self-reference: `"*main 1 2"`. -/
def storeSelfRef : GridStore :=
  [("main", ⟨"main", [[Cell.ref "main" (some true), Cell.concrete "1",
      Cell.concrete "2"]]⟩)]

/-- Two 1×1 grids whose only cells reference each other. -/
def storeMutualRef : GridStore :=
  [("A", ⟨"A", [[Cell.ref "B" (some true)]]⟩),
   ("B", ⟨"B", [[Cell.ref "A" (some true)]]⟩)]

/-- C1: pushing East from the self-reference cell of `"*main 1 2"` walks
1 → 2 → (exit through the primary ref) → back to cell (0,1), closing a loop at
a position that is **not** the path's start (the start is (0,0)).  The spec,
the docstring of `push` and the source's own comments call this a failure, but
the success check `path[0][0] == start` compares the path's first element —
which is the start by construction — instead of the revisited position, so
both `push` and `push_simple` return a rotated store.  This theorem documents
the faulty behaviour at that input. -/
theorem push_nonstart_cycle_returns_store :
    (push_traverse_backtracking storeSelfRef ⟨"main", 0, 0⟩ Direction.E
        defaultRules noTags 1000 10).2 = TerminationReason.PATH_CYCLE_DETECTED
    ∧ (push_traverse_simple storeSelfRef ⟨"main", 0, 0⟩ Direction.E
        defaultRules noTags 1000).2 = TerminationReason.PATH_CYCLE_DETECTED
    ∧ push storeSelfRef ⟨"main", 0, 0⟩ Direction.E defaultRules noTags 1000 10
        = some [("main", ⟨"main", [[Cell.concrete "2",
            Cell.ref "main" (some true), Cell.concrete "1"]]⟩)]
    ∧ push_simple storeSelfRef ⟨"main", 0, 0⟩ Direction.E defaultRules noTags
        1000
        = some [("main", ⟨"main", [[Cell.concrete "2",
            Cell.ref "main" (some true), Cell.concrete "1"]]⟩)] := by
  refine ⟨by decide, by decide, by decide, by decide⟩

/-- C7: in a store where two 1×1 grids reference each other as their only
content, advancing out of either grid reaches the exit-cascade, whose chain
follower detects the `(grid,row,col)` revisit and reports `hit_cycle = True`
after finitely many steps; `push` from either grid, in either horizontal
direction, then fails with no store produced. -/
theorem mutual_ref_exit_cycle_terminates :
    (follow_exit_chain storeMutualRef Direction.E defaultRules 1000 []
        ⟨"B", 0, 0⟩).2 = true
    ∧ (follow_exit_chain storeMutualRef Direction.E defaultRules 1000 []
        ⟨"A", 0, 0⟩).2 = true
    ∧ push storeMutualRef ⟨"A", 0, 0⟩ Direction.E defaultRules noTags 1000 10
        = none
    ∧ push storeMutualRef ⟨"B", 0, 0⟩ Direction.E defaultRules noTags 1000 10
        = none
    ∧ push storeMutualRef ⟨"A", 0, 0⟩ Direction.W defaultRules noTags 1000 10
        = none
    ∧ push storeMutualRef ⟨"B", 0, 0⟩ Direction.W defaultRules noTags 1000 10
        = none := by
  refine ⟨by decide, by decide, by decide, by decide, by decide, by decide⟩

/-- C8: with no continuity state (the only entry computation this code has),
entering a grid of at least one row and column via a Ref lands on the middle
of the edge faced by the direction of travel: `(rows/2, 0)` for East,
`(rows/2, cols-1)` for West, `(0, cols/2)` for South, `(rows-1, cols/2)` for
North — both in `try_enter` and in the standalone
`calculate_standard_entry_position` helper. -/
theorem middle_of_edge_entry (store : GridStore) (gridId : String)
    (rules : RuleSet) (g : Grid) (hg : storeGet? store gridId = some g)
    (hr : 1 ≤ g.rows) (hc : 1 ≤ g.cols) :
    try_enter store gridId Direction.E rules = some ⟨gridId, g.rows / 2, 0⟩
    ∧ try_enter store gridId Direction.W rules
        = some ⟨gridId, g.rows / 2, g.cols - 1⟩
    ∧ try_enter store gridId Direction.S rules = some ⟨gridId, 0, g.cols / 2⟩
    ∧ try_enter store gridId Direction.N rules
        = some ⟨gridId, g.rows - 1, g.cols / 2⟩
    ∧ DepthAware.calculate_standard_entry_position Direction.E g.rows g.cols
        = (g.rows / 2, 0)
    ∧ DepthAware.calculate_standard_entry_position Direction.W g.rows g.cols
        = (g.rows / 2, g.cols - 1)
    ∧ DepthAware.calculate_standard_entry_position Direction.S g.rows g.cols
        = (0, g.cols / 2)
    ∧ DepthAware.calculate_standard_entry_position Direction.N g.rows g.cols
        = (g.rows - 1, g.cols / 2) := by
  refine ⟨?_, ?_, ?_, ?_, rfl, rfl, rfl, rfl⟩ <;> simp [try_enter, hg]

/-- A concrete 2×3 all-empty grid for the `middle_of_edge_entry` witness. -/
def gridTwoByThree : Grid :=
  ⟨"g", [[Cell.empty, Cell.empty, Cell.empty],
    [Cell.empty, Cell.empty, Cell.empty]]⟩

/-- Witness for `middle_of_edge_entry` at a concrete 2×3 grid. -/
theorem middle_of_edge_entry_witness :
    storeGet? [("g", gridTwoByThree)] "g" = some gridTwoByThree
    ∧ try_enter [("g", gridTwoByThree)] "g" Direction.E defaultRules
        = some ⟨"g", 1, 0⟩ := by
  refine ⟨by decide, ?_⟩
  exact (middle_of_edge_entry [("g", gridTwoByThree)] "g" defaultRules
    gridTwoByThree (by decide) (by decide) (by decide)).1

end Paragrid

namespace Paragrid

/-- An explicitly-primary reference to `target` is in particular a reference
to `target`. -/
theorem isRefTo_of_isExplicitPrimaryTo (target : String) (c : Cell)
    (h : isExplicitPrimaryTo target c = true) : isRefTo target c = true := by
  cases c with
  | empty => simp [isExplicitPrimaryTo] at h
  | concrete id => simp [isExplicitPrimaryTo] at h
  | ref gid p =>
    cases p with
    | none => simp [isExplicitPrimaryTo] at h
    | some b =>
      cases b with
      | false => simp [isExplicitPrimaryTo] at h
      | true => simpa [isExplicitPrimaryTo, isRefTo] using h

/-- C3: `find_primary_ref` returns the location of an explicitly marked
primary reference when one exists; with no explicit mark it returns the first
reference to the target in the deterministic grid/cell scan order; and it
returns `none` exactly when the target is never referenced.  (Stability of
repeated calls on the same store is immediate: the embedding is a pure
function of the store.) -/
theorem find_primary_ref_spec (store : GridStore) (target : String) :
    ((∃ e ∈ storeScan store, isExplicitPrimaryTo target e.2.2.2 = true) →
      ∃ e ∈ storeScan store, isExplicitPrimaryTo target e.2.2.2 = true ∧
        find_primary_ref store target = some (e.1, e.2.1, e.2.2.1))
    ∧ ((∀ e ∈ storeScan store, isExplicitPrimaryTo target e.2.2.2 = false) →
      find_primary_ref store target
        = ((storeScan store).find? (fun e => isRefTo target e.2.2.2)).map
            (fun e => (e.1, e.2.1, e.2.2.1)))
    ∧ (find_primary_ref store target = none
        ↔ ∀ e ∈ storeScan store, isRefTo target e.2.2.2 = false) := by
  refine ⟨?_, ?_, ?_, ?_⟩
  · intro h
    have hsome : ((storeScan store).find?
        (fun e => isExplicitPrimaryTo target e.2.2.2)).isSome := by
      rw [List.find?_isSome]
      obtain ⟨e, he, hp⟩ := h
      exact ⟨e, he, hp⟩
    obtain ⟨e, he⟩ := Option.isSome_iff_exists.mp hsome
    have hmem := List.mem_of_find?_eq_some he
    have hpe := List.find?_some he
    refine ⟨e, hmem, by simpa using hpe, ?_⟩
    unfold find_primary_ref
    rw [he]
  · intro h
    have hnone : (storeScan store).find?
        (fun e => isExplicitPrimaryTo target e.2.2.2) = none := by
      rw [List.find?_eq_none]
      intro e he
      simp [h e he]
    unfold find_primary_ref
    rw [hnone]
    cases hr : (storeScan store).find? (fun e => isRefTo target e.2.2.2) with
    | none => rfl
    | some e => rfl
  · intro h
    unfold find_primary_ref at h
    intro e he
    cases hp : (storeScan store).find?
        (fun e => isExplicitPrimaryTo target e.2.2.2) with
    | some x => rw [hp] at h; exact absurd h (by simp)
    | none =>
      rw [hp] at h
      cases hr : (storeScan store).find? (fun e => isRefTo target e.2.2.2) with
      | some x => rw [hr] at h; exact absurd h (by simp)
      | none =>
        have := List.find?_eq_none.mp hr e he
        simpa using this
  · intro h
    have hr : (storeScan store).find? (fun e => isRefTo target e.2.2.2)
        = none := by
      rw [List.find?_eq_none]
      intro e he
      simp [h e he]
    have hp : (storeScan store).find?
        (fun e => isExplicitPrimaryTo target e.2.2.2) = none := by
      rw [List.find?_eq_none]
      intro e he
      intro hc
      have := isRefTo_of_isExplicitPrimaryTo target e.2.2.2 (by simpa using hc)
      rw [h e he] at this
      exact Bool.false_ne_true this
    unfold find_primary_ref
    rw [hp, hr]

/-- A store whose grid `t` has one auto and one explicitly primary reference,
for the `find_primary_ref_spec` witness. -/
def storeExplicitPrimary : GridStore :=
  [("p", ⟨"p", [[Cell.ref "t" none, Cell.ref "t" (some true)]]⟩),
   ("t", ⟨"t", [[Cell.empty]]⟩)]

/-- Witness for `find_primary_ref_spec`: the explicitly marked reference at
`("p",0,1)` exists, and `find_primary_ref` returns an explicitly marked
location. -/
theorem find_primary_ref_spec_witness :
    ∃ e ∈ storeScan storeExplicitPrimary,
      isExplicitPrimaryTo "t" e.2.2.2 = true ∧
        find_primary_ref storeExplicitPrimary "t" = some (e.1, e.2.1, e.2.2.1) := by
  exact (find_primary_ref_spec storeExplicitPrimary "t").1
    ⟨("p", 0, 1, Cell.ref "t" (some true)), by decide, by decide⟩

end Paragrid

namespace Paragrid

/-! Helper lemmas about `setCell`/`applyGridUpdates`, leading to the
characterization of `apply_push`. -/

/-- `getD` after `set`: the written value at the written (in-range) index,
the original everywhere else. -/
theorem list_getD_set {α : Type} (l : List α) (i j : Nat) (a d : α) :
    (l.set i a).getD j d
      = if i = j ∧ j < l.length then a else l.getD j d := by
  induction l generalizing i j with
  | nil => simp
  | cons h t ih =>
    cases i with
    | zero =>
      cases j with
      | zero => simp
      | succ j => simp
    | succ i =>
      cases j with
      | zero => simp
      | succ j =>
        simp only [List.set_cons_succ, List.getD_cons_succ, List.length_cons]
        rw [ih i j]
        simp [Nat.succ_lt_succ_iff]

theorem setCell_id (g : Grid) (r c : Nat) (x : Cell) :
    (setCell g r c x).id = g.id := rfl

theorem setCell_cells_length (g : Grid) (r c : Nat) (x : Cell) :
    (setCell g r c x).cells.length = g.cells.length := by
  simp [setCell]

theorem setCell_row_length (g : Grid) (r c r' : Nat) (x : Cell) :
    ((setCell g r c x).cells.getD r' []).length
      = (g.cells.getD r' []).length := by
  unfold setCell
  rw [list_getD_set]
  by_cases h : r = r' ∧ r' < g.cells.length
  · obtain ⟨h1, h2⟩ := h
    subst h1
    simp [h2]
  · simp [h]

/-- Writing cell `(r, c)` then reading it back gives the written value, for an
in-range position. -/
theorem cellAt_setCell_self (g : Grid) (r c : Nat) (x : Cell)
    (hr : r < g.cells.length) (hc : c < (g.cells.getD r []).length) :
    cellAt (setCell g r c x) r c = x := by
  unfold cellAt setCell
  rw [list_getD_set, if_pos ⟨rfl, hr⟩, list_getD_set, if_pos ⟨rfl, hc⟩]

/-- Writing cell `(r, c)` does not change any other position. -/
theorem cellAt_setCell_ne (g : Grid) (r c r' c' : Nat) (x : Cell)
    (h : ¬(r = r' ∧ c = c')) :
    cellAt (setCell g r c x) r' c' = cellAt g r' c' := by
  unfold cellAt setCell
  by_cases hr : r = r'
  · subst hr
    have hcne : c ≠ c' := by
      intro hcc
      exact h ⟨rfl, hcc⟩
    rw [list_getD_set]
    by_cases hlen : r < g.cells.length
    · rw [if_pos ⟨rfl, hlen⟩, list_getD_set,
        if_neg (fun hh => hcne hh.1)]
    · rw [if_neg (fun hh => hlen hh.2)]
  · rw [list_getD_set, if_neg (fun hh => hr hh.1)]

theorem applyGridUpdates_id (g : Grid) (us : List (Nat × Nat × Cell)) :
    (applyGridUpdates g us).id = g.id := by
  induction us generalizing g with
  | nil => rfl
  | cons u t ih => exact (ih (setCell g u.1 u.2.1 u.2.2)).trans rfl

theorem applyGridUpdates_cells_length (g : Grid)
    (us : List (Nat × Nat × Cell)) :
    (applyGridUpdates g us).cells.length = g.cells.length := by
  induction us generalizing g with
  | nil => rfl
  | cons u t ih =>
    exact (ih (setCell g u.1 u.2.1 u.2.2)).trans
      (setCell_cells_length g u.1 u.2.1 u.2.2)

theorem applyGridUpdates_row_length (g : Grid) (us : List (Nat × Nat × Cell))
    (r' : Nat) :
    ((applyGridUpdates g us).cells.getD r' []).length
      = (g.cells.getD r' []).length := by
  induction us generalizing g with
  | nil => rfl
  | cons u t ih =>
    exact (ih (setCell g u.1 u.2.1 u.2.2)).trans
      (setCell_row_length g u.1 u.2.1 r' u.2.2)

/-- `Grid.cols` as a row-0 length, convenient for the `setCell` lemmas. -/
theorem cols_eq_getD_length (g : Grid) :
    g.cols = (g.cells.getD 0 []).length := by
  cases h : g.cells with
  | nil => simp [Grid.cols, h]
  | cons r t => simp [Grid.cols, h]

theorem applyGridUpdates_rows (g : Grid) (us : List (Nat × Nat × Cell)) :
    (applyGridUpdates g us).rows = g.rows := by
  unfold Grid.rows
  exact applyGridUpdates_cells_length g us

theorem applyGridUpdates_cols (g : Grid) (us : List (Nat × Nat × Cell)) :
    (applyGridUpdates g us).cols = g.cols := by
  rw [cols_eq_getD_length, cols_eq_getD_length]
  exact applyGridUpdates_row_length g us 0

/-- Reading an in-range position after a sequence of writes: the value of the
last write to that position if there is one, otherwise the original cell. -/
theorem cellAt_applyGridUpdates (g : Grid) (us : List (Nat × Nat × Cell))
    (r c : Nat) (hr : r < g.cells.length)
    (hc : c < (g.cells.getD r []).length) :
    cellAt (applyGridUpdates g us) r c
      = ((us.reverse.find? (fun u => u.1 == r && u.2.1 == c)).map
          (fun u => u.2.2)).getD (cellAt g r c) := by
  induction us generalizing g with
  | nil => simp [applyGridUpdates]
  | cons u t ih =>
    have step : applyGridUpdates g (u :: t)
        = applyGridUpdates (setCell g u.1 u.2.1 u.2.2) t := rfl
    have hr2 : r < (setCell g u.1 u.2.1 u.2.2).cells.length := by
      rw [setCell_cells_length]
      exact hr
    have hc2 : c < ((setCell g u.1 u.2.1 u.2.2).cells.getD r []).length := by
      rw [setCell_row_length]
      exact hc
    rw [step, ih (setCell g u.1 u.2.1 u.2.2) hr2 hc2, List.reverse_cons,
      List.find?_append]
    cases hf : t.reverse.find? (fun u => u.1 == r && u.2.1 == c) with
    | some v => simp
    | none =>
      simp only [Option.none_or]
      by_cases hu : u.1 = r ∧ u.2.1 = c
      · obtain ⟨h1, h2⟩ := hu
        subst h1
        subst h2
        simp only [List.find?_singleton, beq_self_eq_true, Bool.and_self,
          if_true, Option.map_some, Option.getD_some]
        exact cellAt_setCell_self g u.1 u.2.1 u.2.2 hr hc
      · have hpred : (u.1 == r && u.2.1 == c) = false := by
          rcases not_and_or.mp hu with h1 | h2
          · simp [beq_eq_false_iff_ne.mpr h1]
          · simp [beq_eq_false_iff_ne.mpr h2]
        simp only [List.find?_singleton, hpred, if_false, Option.map_none,
          Option.getD_none]
        exact cellAt_setCell_ne g u.1 u.2.1 r c u.2.2 hu

end Paragrid

namespace Paragrid

theorem rotateCells_length (l : List Cell) :
    (rotateCells l).length = l.length := by
  cases hl : l.getLast? with
  | none =>
    rw [List.getLast?_eq_none_iff] at hl
    subst hl
    rfl
  | some a =>
    have hne : l ≠ [] := by
      intro h
      subst h
      simp at hl
    have hpos : 0 < l.length := List.length_pos.mpr hne
    simp only [rotateCells, hl, List.length_cons, List.length_dropLast]
    omega

/-- The rotated list is a permutation of the original (the heart of the
"rotation is a permutation" property). -/
theorem rotateCells_perm (l : List Cell) : (rotateCells l).Perm l := by
  cases hl : l.getLast? with
  | none =>
    rw [List.getLast?_eq_none_iff] at hl
    subst hl
    rfl
  | some a =>
    have hsplit : l.dropLast ++ [a] = l := List.dropLast_append_getLast? _ hl
    simp only [rotateCells, hl]
    have hstep : (a :: l.dropLast).Perm (l.dropLast ++ [a]) :=
      (List.perm_append_singleton a l.dropLast).symm
    have h2 : (l.dropLast ++ [a]).Perm l := by
      rw [hsplit]
    exact hstep.trans h2

/-- `find?` returns the element when it is the unique one satisfying the
predicate. -/
theorem find?_eq_some_of_unique {α : Type} (l : List α) (p : α → Bool) (x : α)
    (hx : x ∈ l) (hpx : p x = true)
    (huniq : ∀ y ∈ l, p y = true → y = x) : l.find? p = some x := by
  induction l with
  | nil => cases hx
  | cons h t ih =>
    rw [List.find?_cons]
    by_cases hph : p h = true
    · rw [hph]
      exact congrArg some (huniq h (List.mem_cons_self h t) hph)
    · have hph' : p h = false := Bool.eq_false_iff.mpr hph
      rw [hph']
      rcases List.mem_cons.mp hx with hx1 | hx2
      · subst hx1
        exact absurd hpx hph
      · exact ih hx2 (fun y hy hpy => huniq y (List.mem_cons_of_mem h hy) hpy)

/-- Lookup in the store produced by `apply_push`: the original grid, with its
update list applied when that list is non-empty. -/
theorem storeGet?_apply_push (store : GridStore)
    (path : List (CellPosition × Cell)) (gid : String) :
    storeGet? (apply_push store path) gid
      = (storeGet? store gid).map (fun g =>
          if (updatesFor path gid).isEmpty then g
          else applyGridUpdates g (updatesFor path gid)) := by
  induction store with
  | nil => rfl
  | cons e t ih =>
    show storeGet? (apply_push (e :: t) path) gid = _
    unfold apply_push storeGet?
    unfold apply_push storeGet? at ih
    simp only [List.map_cons, List.find?_cons]
    have hkey : (if (updatesFor path e.1).isEmpty then e
        else (e.1, applyGridUpdates e.2 (updatesFor path e.1))).1 = e.1 := by
      by_cases h : (updatesFor path e.1).isEmpty
      · rw [if_pos h]
      · rw [if_neg h]
    by_cases hb : (e.1 == gid) = true
    · have hgid : e.1 = gid := eq_of_beq hb
      rw [hkey, hb]
      subst hgid
      by_cases h : (updatesFor path e.1).isEmpty
      · rw [if_pos h]
        simp [h]
      · rw [if_neg h]
        simp [h]
    · have hb' : (e.1 == gid) = false := Bool.eq_false_iff.mpr hb
      rw [hkey, hb']
      exact ih

/-- Membership description of `updatesFor`. -/
theorem mem_updatesFor (path : List (CellPosition × Cell)) (gid : String)
    (u : Nat × Nat × Cell) :
    u ∈ updatesFor path gid
      ↔ ∃ pr ∈ (path.map Prod.fst).zip (rotateCells (path.map Prod.snd)),
          pr.1.gridId = gid ∧ u = (pr.1.row, pr.1.col, pr.2) := by
  unfold updatesFor
  rw [List.mem_filterMap]
  constructor
  · rintro ⟨pr, hpr, hu⟩
    by_cases h : (pr.1.gridId == gid) = true
    · rw [if_pos h] at hu
      exact ⟨pr, hpr, eq_of_beq h, (Option.some_injective _ hu).symm⟩
    · rw [if_neg h] at hu
      cases hu
  · rintro ⟨pr, hpr, hgid, hu⟩
    refine ⟨pr, hpr, ?_⟩
    rw [if_pos (beq_iff_eq.mpr hgid), hu]

end Paragrid

namespace Paragrid

/-- The write behaviour of `apply_push`: with pairwise-distinct in-bounds
positions, the cell finally stored at the `i`-th path position is the `i`-th
element of the rotated cell sequence. -/
theorem apply_push_writes (store : GridStore)
    (path : List (CellPosition × Cell))
    (hnd : (path.map Prod.fst).Nodup)
    (hb : ∀ p ∈ path.map Prod.fst, inBoundsB store p = true) :
    ∀ pr ∈ (path.map Prod.fst).zip (rotateCells (path.map Prod.snd)),
      get_cell (apply_push store path) pr.1 = pr.2 := by
  intro pr hpr
  have hlen : (rotateCells (path.map Prod.snd)).length
      = (path.map Prod.fst).length := by
    rw [rotateCells_length]
    simp
  obtain ⟨i, hi, hzi⟩ := List.getElem_of_mem hpr
  have hi1 : i < (path.map Prod.fst).length := by
    rw [List.length_zip] at hi
    omega
  have hi2 : i < (rotateCells (path.map Prod.snd)).length := by
    rw [List.length_zip] at hi
    omega
  have hcomp : ((path.map Prod.fst)[i],
      (rotateCells (path.map Prod.snd))[i]) = pr := by
    rw [← hzi, List.getElem_zip]
  have hfst : (path.map Prod.fst)[i] = pr.1 := by
    rw [← hcomp]
  have hsnd : (rotateCells (path.map Prod.snd))[i] = pr.2 := by
    rw [← hcomp]
  have hmem1 : pr.1 ∈ path.map Prod.fst := by
    rw [← hfst]
    exact List.getElem_mem hi1
  have hbp := hb pr.1 hmem1
  unfold inBoundsB at hbp
  rcases hsg : storeGet? store pr.1.gridId with _ | g
  · rw [hsg] at hbp
    cases hbp
  · rw [hsg] at hbp
    simp only [Bool.and_eq_true, decide_eq_true_eq] at hbp
    obtain ⟨hr, hc⟩ := hbp
    have hmemu : (pr.1.row, pr.1.col, pr.2) ∈ updatesFor path pr.1.gridId :=
      (mem_updatesFor path pr.1.gridId _).mpr ⟨pr, hpr, rfl, rfl⟩
    have husne : ¬(updatesFor path pr.1.gridId).isEmpty = true := by
      intro h
      rw [List.isEmpty_iff] at h
      rw [h] at hmemu
      cases hmemu
    unfold get_cell storeGet
    rw [storeGet?_apply_push, hsg]
    simp only [Option.map_some', Option.getD_some]
    rw [if_neg husne]
    rw [cellAt_applyGridUpdates g (updatesFor path pr.1.gridId) pr.1.row
      pr.1.col hr hc]
    have huniq : ∀ y ∈ (updatesFor path pr.1.gridId).reverse,
        (y.1 == pr.1.row && y.2.1 == pr.1.col) = true
          → y = (pr.1.row, pr.1.col, pr.2) := by
      intro y hy hpy
      have hy' := List.mem_reverse.mp hy
      obtain ⟨pr', hpr', hgid', hy'eq⟩ :=
        (mem_updatesFor path pr.1.gridId y).mp hy'
      obtain ⟨j, hj, hzj⟩ := List.getElem_of_mem hpr'
      have hj1 : j < (path.map Prod.fst).length := by
        rw [List.length_zip] at hj
        omega
      have hj2 : j < (rotateCells (path.map Prod.snd)).length := by
        rw [List.length_zip] at hj
        omega
      have hcomp' : ((path.map Prod.fst)[j],
          (rotateCells (path.map Prod.snd))[j]) = pr' := by
        rw [← hzj, List.getElem_zip]
      have hfst' : (path.map Prod.fst)[j] = pr'.1 := by
        rw [← hcomp']
      have hsnd' : (rotateCells (path.map Prod.snd))[j] = pr'.2 := by
        rw [← hcomp']
      rw [hy'eq] at hpy
      simp only [Bool.and_eq_true, beq_iff_eq] at hpy
      obtain ⟨hrow', hcol'⟩ := hpy
      have hpos : pr'.1 = pr.1 := by
        cases hp' : pr'.1 with
        | mk g' r' c' =>
          cases hp : pr.1 with
          | mk g0 r0 c0 =>
            rw [hp'] at hgid' hrow' hcol'
            rw [hp] at hrow' hcol'
            simp only at hgid' hrow' hcol'
            rw [hp] at hgid'
            simp only at hgid'
            subst hgid'
            subst hrow'
            subst hcol'
            rfl
      have hij : j = i := by
        have hL : (path.map Prod.fst)[j] = (path.map Prod.fst)[i] := by
          rw [hfst', hpos, hfst]
        exact (List.Nodup.getElem_inj_iff hnd).mp hL
      subst hij
      have hpr'pr : pr' = pr := by
        rw [← hcomp', ← hcomp]
      rw [hy'eq, hpr'pr]
    have hfind : (updatesFor path pr.1.gridId).reverse.find?
        (fun u => u.1 == pr.1.row && u.2.1 == pr.1.col)
          = some (pr.1.row, pr.1.col, pr.2) :=
      find?_eq_some_of_unique _ _ _ (List.mem_reverse.mpr hmemu) (by simp)
        huniq
    rw [hfind]
    rfl

end Paragrid

namespace Paragrid

/-- C2 (amended): for a non-empty path with pairwise-distinct, in-bounds
positions whose recorded cells are the store's cells at those positions,
`apply_push` writes at each path position the corresponding element of the
rotated sequence `[c0,...,cn] -> [cn,c0,...,c(n-1)]`, and the multiset of cell
contents over the path positions is unchanged. -/
theorem apply_push_rotates_path_cells (store : GridStore)
    (path : List (CellPosition × Cell))
    (hne : path ≠ [])
    (hnd : (path.map Prod.fst).Nodup)
    (hb : ∀ p ∈ path.map Prod.fst, inBoundsB store p = true)
    (hcells : ∀ pc ∈ path, pc.2 = get_cell store pc.1) :
    (∀ pr ∈ (path.map Prod.fst).zip (rotateCells (path.map Prod.snd)),
      get_cell (apply_push store path) pr.1 = pr.2)
    ∧ Multiset.ofList
        ((path.map Prod.fst).map (get_cell (apply_push store path)))
      = Multiset.ofList ((path.map Prod.fst).map (get_cell store)) := by
  have hwrites := apply_push_writes store path hnd hb
  refine ⟨hwrites, ?_⟩
  have hrotlen : (rotateCells (path.map Prod.snd)).length
      = (path.map Prod.fst).length := by
    rw [rotateCells_length]
    simp
  have hnewlist : (path.map Prod.fst).map (get_cell (apply_push store path))
      = rotateCells (path.map Prod.snd) := by
    refine List.ext_getElem (by simp [hrotlen]) ?_
    intro n h1 h2
    have hn1 : n < (path.map Prod.fst).length := by
      simpa using h1
    have hmemz : ((path.map Prod.fst)[n],
        (rotateCells (path.map Prod.snd))[n])
          ∈ (path.map Prod.fst).zip (rotateCells (path.map Prod.snd)) := by
      have hnz : n < ((path.map Prod.fst).zip
          (rotateCells (path.map Prod.snd))).length := by
        rw [List.length_zip]
        omega
      have := List.getElem_mem hnz
      rw [List.getElem_zip] at this
      exact this
    have := hwrites _ hmemz
    simpa using this
  have holdlist : (path.map Prod.fst).map (get_cell store)
      = path.map Prod.snd := by
    refine List.ext_getElem (by simp) ?_
    intro n h1 h2
    have hn : n < path.length := by
      simpa using h2
    have hmemp : path[n] ∈ path := List.getElem_mem hn
    have := hcells _ hmemp
    simp only [List.getElem_map]
    rw [← this]
  rw [hnewlist, holdlist]
  exact Multiset.coe_eq_coe.mpr (rotateCells_perm (path.map Prod.snd))

/-- The 1×1 store used by the C2 counterexample and the C4/C10 witnesses. -/
def storeOneCell : GridStore := [("main", ⟨"main", [[Cell.concrete "a"]]⟩)]

/-- A path that lists the same position twice with two different recorded
cells; `apply_push` applies both writes to the one cell, and the later write
wins. -/
def pathDup : List (CellPosition × Cell) :=
  [(⟨"main", 0, 0⟩, Cell.concrete "b"), (⟨"main", 0, 0⟩, Cell.concrete "a")]

/-- C2 counterexample: for the duplicate-position path `pathDup` (non-empty,
as the claim requires), `apply_push` does *not* write the rotated sequence at
each path position — the rotated sequence assigns `a` to path index 0 but the
final store holds `b` — and the multiset of cell contents over the path
positions changes from `{a}` to `{b}`.  The claim quantifies over every
non-empty path, so this input refutes it as stated. -/
theorem apply_push_duplicate_position_counterexample :
    pathDup ≠ []
    ∧ ¬ (∀ pr ∈ (pathDup.map Prod.fst).zip
          (rotateCells (pathDup.map Prod.snd)),
        get_cell (apply_push storeOneCell pathDup) pr.1 = pr.2)
    ∧ Multiset.ofList
        ((pathDup.map Prod.fst).map (get_cell (apply_push storeOneCell pathDup)))
      ≠ Multiset.ofList ((pathDup.map Prod.fst).map (get_cell storeOneCell)) := by
  refine ⟨by decide, ?_, ?_⟩
  · intro hall
    have := hall (⟨"main", 0, 0⟩, Cell.concrete "a") (by decide)
    exact absurd this (by decide)
  · intro hmul
    have hperm := Multiset.coe_eq_coe.mp hmul
    have := hperm.length_eq
    have hfact : ((pathDup.map Prod.fst).map
        (get_cell (apply_push storeOneCell pathDup)))
          = [Cell.concrete "b", Cell.concrete "b"] := by decide
    have hfact2 : ((pathDup.map Prod.fst).map (get_cell storeOneCell))
          = [Cell.concrete "a", Cell.concrete "a"] := by decide
    rw [hfact, hfact2] at hperm
    have hmemb : Cell.concrete "b" ∈ [Cell.concrete "a", Cell.concrete "a"] :=
      hperm.mem_iff.mp (by decide)
    exact absurd hmemb (by decide)

/-- A straight-line 1×3 path store for the C2 witness. -/
def storeRow3 : GridStore :=
  [("main", ⟨"main", [[Cell.concrete "a", Cell.concrete "b", Cell.empty]]⟩)]

/-- The genuine push path through `storeRow3`. -/
def pathRow3 : List (CellPosition × Cell) :=
  [(⟨"main", 0, 0⟩, Cell.concrete "a"), (⟨"main", 0, 1⟩, Cell.concrete "b"),
   (⟨"main", 0, 2⟩, Cell.empty)]

/-- Witness for `apply_push_rotates_path_cells` on the concrete path
`pathRow3`. -/
theorem apply_push_rotates_path_cells_witness :
    (pathRow3 ≠ [] ∧ (pathRow3.map Prod.fst).Nodup
      ∧ (∀ p ∈ pathRow3.map Prod.fst, inBoundsB storeRow3 p = true)
      ∧ (∀ pc ∈ pathRow3, pc.2 = get_cell storeRow3 pc.1))
    ∧ ((∀ pr ∈ (pathRow3.map Prod.fst).zip
          (rotateCells (pathRow3.map Prod.snd)),
        get_cell (apply_push storeRow3 pathRow3) pr.1 = pr.2)
      ∧ Multiset.ofList
          ((pathRow3.map Prod.fst).map (get_cell (apply_push storeRow3 pathRow3)))
        = Multiset.ofList ((pathRow3.map Prod.fst).map (get_cell storeRow3))) :=
  ⟨⟨by decide, by decide, by decide, by decide⟩,
    apply_push_rotates_path_cells storeRow3 pathRow3 (by decide) (by decide)
      (by decide) (by decide)⟩

end Paragrid

namespace Paragrid

/-- `updatesFor` is empty for a grid id that hosts no path position. -/
theorem updatesFor_eq_nil_of_not_mem (path : List (CellPosition × Cell))
    (gid : String) (h : gid ∉ path.map (fun pc => pc.1.gridId)) :
    updatesFor path gid = [] := by
  unfold updatesFor
  rw [List.filterMap_eq_nil_iff]
  intro pr hpr
  have hfst : pr.1 ∈ path.map Prod.fst := (List.of_mem_zip hpr).1
  have hgid : pr.1.gridId ∈ path.map (fun pc => pc.1.gridId) := by
    obtain ⟨pc, hpc, hpceq⟩ := List.mem_map.mp hfst
    exact List.mem_map.mpr ⟨pc, hpc, by rw [hpceq]⟩
  have hne : ¬(pr.1.gridId == gid) = true := by
    intro hbeq
    exact h (eq_of_beq hbeq ▸ hgid)
  rw [if_neg hne]

/-- C4: `apply_push` never mutates its input (the embedding is a pure
function: `store` denotes the same value before and after the call); the store
it returns has entry-for-entry the same keys as the input, and every grid
containing no path position is returned as *the very same grid value* (the
`store.copy()` shares the entry; only grids with path positions are rebuilt). -/
theorem apply_push_frame (store : GridStore)
    (path : List (CellPosition × Cell)) :
    List.Forall₂ (fun e e' : String × Grid =>
        e'.1 = e.1
        ∧ (e.1 ∉ path.map (fun pc => pc.1.gridId) → e' = e))
      store (apply_push store path) := by
  induction store with
  | nil => exact List.Forall₂.nil
  | cons e t ih =>
    refine List.Forall₂.cons ?_ ih
    constructor
    · by_cases h : (updatesFor path e.1).isEmpty
      · show (if (updatesFor path e.1).isEmpty then e
            else (e.1, applyGridUpdates e.2 (updatesFor path e.1))).1 = e.1
        rw [if_pos h]
      · show (if (updatesFor path e.1).isEmpty then e
            else (e.1, applyGridUpdates e.2 (updatesFor path e.1))).1 = e.1
        rw [if_neg h]
    · intro hnot
      have hnil := updatesFor_eq_nil_of_not_mem path e.1 hnot
      show (if (updatesFor path e.1).isEmpty then e
          else (e.1, applyGridUpdates e.2 (updatesFor path e.1))) = e
      rw [hnil]
      rfl

/-- Closed instance of `apply_push_frame`: in `storeRow3 ++ untouched grid`,
the grid hosting no path position comes back as the identical value. -/
theorem apply_push_frame_witness :
    List.Forall₂ (fun e e' : String × Grid =>
        e'.1 = e.1
        ∧ (e.1 ∉ pathRow3.map (fun pc => pc.1.gridId) → e' = e))
      (storeRow3 ++ storeOneCell)
      (apply_push (storeRow3 ++ storeOneCell) pathRow3) :=
  apply_push_frame (storeRow3 ++ storeOneCell) pathRow3

/-- `apply_push` on a cons store, unfolded one step. -/
theorem apply_push_cons (e : String × Grid) (t : GridStore)
    (path : List (CellPosition × Cell)) :
    apply_push (e :: t) path
      = (if (updatesFor path e.1).isEmpty then e
          else (e.1, applyGridUpdates e.2 (updatesFor path e.1)))
        :: apply_push t path := rfl

theorem apply_push_map_fst (store : GridStore)
    (path : List (CellPosition × Cell)) :
    (apply_push store path).map Prod.fst = store.map Prod.fst := by
  induction store with
  | nil => rfl
  | cons e t ih =>
    rw [apply_push_cons, List.map_cons, List.map_cons, ih]
    by_cases h : (updatesFor path e.1).isEmpty
    · rw [if_pos h]
    · rw [if_neg h]

theorem apply_push_shape_entrywise (store : GridStore)
    (path : List (CellPosition × Cell)) :
    List.Forall₂ (fun e e' : String × Grid =>
        e'.2.id = e.2.id ∧ e'.2.rows = e.2.rows ∧ e'.2.cols = e.2.cols)
      store (apply_push store path) := by
  induction store with
  | nil => exact List.Forall₂.nil
  | cons e t ih =>
    rw [apply_push_cons]
    refine List.Forall₂.cons ?_ ih
    by_cases h : (updatesFor path e.1).isEmpty
    · rw [if_pos h]
      exact ⟨rfl, rfl, rfl⟩
    · rw [if_neg h]
      exact ⟨applyGridUpdates_id e.2 _, applyGridUpdates_rows e.2 _,
        applyGridUpdates_cols e.2 _⟩

/-- C10: for a path of in-bounds positions, `apply_push` preserves the key
sequence of the store (hence the set of grid ids) and, entry by entry, each
output grid keeps the input grid's `id`, `rows` and `cols` — only cell
contents change, never shapes or the set of grids. -/
theorem apply_push_preserves_shape (store : GridStore)
    (path : List (CellPosition × Cell))
    (hb : ∀ p ∈ path.map Prod.fst, inBoundsB store p = true) :
    (apply_push store path).map Prod.fst = store.map Prod.fst
    ∧ List.Forall₂ (fun e e' : String × Grid =>
        e'.2.id = e.2.id ∧ e'.2.rows = e.2.rows ∧ e'.2.cols = e.2.cols)
      store (apply_push store path) :=
  ⟨apply_push_map_fst store path, apply_push_shape_entrywise store path⟩

/-- Witness for `apply_push_preserves_shape` on the concrete `pathRow3`. -/
theorem apply_push_preserves_shape_witness :
    (∀ p ∈ pathRow3.map Prod.fst, inBoundsB storeRow3 p = true)
    ∧ ((apply_push storeRow3 pathRow3).map Prod.fst = storeRow3.map Prod.fst
      ∧ List.Forall₂ (fun e e' : String × Grid =>
          e'.2.id = e.2.id ∧ e'.2.rows = e.2.rows ∧ e'.2.cols = e.2.cols)
        storeRow3 (apply_push storeRow3 pathRow3)) :=
  ⟨by decide, apply_push_preserves_shape storeRow3 pathRow3 (by decide)⟩

end Paragrid

namespace AncestorEntry

/-- Bounds of a cell's extent: for a valid index the interval sits inside
`[0,1]` and is non-degenerate. -/
theorem extent_bounds (i d : Nat) (hd : 1 ≤ d) (hi : i < d) :
    0 ≤ (compute_cell_extent i d).1
    ∧ (compute_cell_extent i d).1 < (compute_cell_extent i d).2
    ∧ (compute_cell_extent i d).2 ≤ 1 := by
  by_cases hd1 : d = 1
  · subst hd1
    simp [compute_cell_extent]
  · have hd2 : 2 ≤ d := by omega
    have hD : (2 : ℚ) ≤ (d : ℚ) := by exact_mod_cast hd2
    have hiD : (i : ℚ) + 1 ≤ (d : ℚ) := by exact_mod_cast hi
    have hi0 : (0 : ℚ) ≤ (i : ℚ) := Nat.cast_nonneg i
    have hpos : (0 : ℚ) < (d : ℚ) + 1 := by linarith
    have hne : (d : ℚ) + 1 ≠ 0 := ne_of_gt hpos
    simp only [compute_cell_extent, if_neg hd1]
    by_cases hz : i = 0
    · have hlast0 : ¬(0 = d - 1) := by omega
      subst hz
      simp only [if_pos rfl, if_neg hlast0, Nat.cast_zero]
      refine ⟨le_refl 0, ?_, ?_⟩
      · positivity
      · rw [div_le_one (by norm_num : (0:ℚ) < 2), div_add_div_same,
          div_le_iff₀ hpos]
        linarith
    · by_cases hlast : i = d - 1
      · simp only [if_neg hz, if_pos hlast]
        refine ⟨?_, ?_, le_refl 1⟩
        · positivity
        · rw [div_lt_one (by norm_num : (0:ℚ) < 2), div_add_div_same,
            div_lt_iff₀ hpos]
          linarith
      · simp only [if_neg hz, if_neg hlast]
        have hiq : (i : ℚ) + 2 ≤ (d : ℚ) := by
          have h2 : i + 2 ≤ d := by omega
          exact_mod_cast h2
        refine ⟨?_, ?_, ?_⟩
        · positivity
        · rw [div_lt_div_iff (by norm_num : (0:ℚ) < 2)
            (by norm_num : (0:ℚ) < 2), div_add_div_same, div_add_div_same,
            div_mul_eq_mul_div, div_mul_eq_mul_div,
            div_lt_div_iff hpos hpos]
          nlinarith
        · rw [div_le_one (by norm_num : (0:ℚ) < 2), div_add_div_same,
            div_le_iff₀ hpos]
          linarith

end AncestorEntry

namespace AncestorEntry

/-- Single-hop round trip: mapping into the parent cell's extent and back is
the identity on `[0,1]` (exact rational arithmetic, no clamping fires). -/
theorem map_roundtrip (f : ℚ) (i d : Nat) (hd : 1 ≤ d) (hi : i < d)
    (h0 : 0 ≤ f) (h1 : f ≤ 1) :
    map_fraction_to_child (map_fraction_through_parent f i d) i d = f := by
  obtain ⟨hlo, hlth, hhi⟩ := extent_bounds i d hd hi
  simp only [map_fraction_through_parent, map_fraction_to_child]
  have hext : (compute_cell_extent i d).2 - (compute_cell_extent i d).1 ≠ 0 :=
    by linarith
  rw [if_neg hext]
  have hloc : ((compute_cell_extent i d).1
      + f * ((compute_cell_extent i d).2 - (compute_cell_extent i d).1)
      - (compute_cell_extent i d).1)
        / ((compute_cell_extent i d).2 - (compute_cell_extent i d).1) = f := by
    field_simp
  rw [hloc, if_neg (not_lt.mpr h0), if_neg (not_lt.mpr h1)]

/-- The forward map sends `[0,1]` into `[0,1]`. -/
theorem map_through_parent_mem (f : ℚ) (i d : Nat) (hd : 1 ≤ d) (hi : i < d)
    (h0 : 0 ≤ f) (h1 : f ≤ 1) :
    0 ≤ map_fraction_through_parent f i d
    ∧ map_fraction_through_parent f i d ≤ 1 := by
  obtain ⟨hlo, hlth, hhi⟩ := extent_bounds i d hd hi
  simp only [map_fraction_through_parent]
  constructor
  · nlinarith
  · nlinarith

/-- The fraction produced by composing the forward maps of a hop chain,
first hop applied first (the climb loop of
`compute_exit_ancestor_fraction`). -/
def applyForwardChain (hops : List (Nat × Nat)) (f : ℚ) : ℚ :=
  hops.foldl (fun fr h => map_fraction_through_parent fr h.1 h.2) f

/-- The matching composition of inverse maps, undoing the chain last hop
first (the descent loop of `compute_entry_from_ancestor_fraction`). -/
def applyInverseChain (hops : List (Nat × Nat)) (f : ℚ) : ℚ :=
  match hops with
  | [] => f
  | h :: t => map_fraction_to_child (applyInverseChain t f) h.1 h.2

/-- Auxiliary `∀`-form of the k-hop round trip, for the list induction. -/
theorem chain_roundtrip_aux (hops : List (Nat × Nat))
    (hh : ∀ p ∈ hops, 1 ≤ p.2 ∧ p.1 < p.2) :
    ∀ f : ℚ, 0 ≤ f → f ≤ 1
      → applyInverseChain hops (applyForwardChain hops f) = f := by
  induction hops with
  | nil =>
    intro f h0 h1
    rfl
  | cons h t ih =>
    intro f h0 h1
    obtain ⟨hd, hi⟩ := hh h (List.mem_cons_self h t)
    obtain ⟨hf0, hf1⟩ := map_through_parent_mem f h.1 h.2 hd hi h0 h1
    have hfwd : applyForwardChain (h :: t) f
        = applyForwardChain t (map_fraction_through_parent f h.1 h.2) := rfl
    have hinv : applyInverseChain (h :: t) (applyForwardChain (h :: t) f)
        = map_fraction_to_child
            (applyInverseChain t (applyForwardChain (h :: t) f)) h.1 h.2 := rfl
    rw [hinv, hfwd,
      ih (fun p hp => hh p (List.mem_cons_of_mem h hp)) _ hf0 hf1]
    exact map_roundtrip f h.1 h.2 hd hi h0 h1

/-- A cell center lies in `[0,1]`. -/
theorem center_mem (i d : Nat) (hi : i < d) :
    0 ≤ compute_cell_center_fraction i d
    ∧ compute_cell_center_fraction i d ≤ 1 := by
  have hiD : (i : ℚ) + 1 ≤ (d : ℚ) := by exact_mod_cast hi
  have hpos : (0 : ℚ) < (d : ℚ) + 1 := by positivity
  unfold compute_cell_center_fraction
  constructor
  · positivity
  · rw [div_le_one hpos]
    linarith

end AncestorEntry

namespace AncestorEntry

/-- Invariant of `find_nearest_cell`'s fold over `range n`: the accumulator
holds a seen index with its distance, that distance is minimal among the seen
indices, and every index below the kept one is strictly worse (so the first
minimizer is kept on ties). -/
theorem nearest_fold_spec (f : ℚ) (d n : Nat) :
    ((List.range n).foldl (nearestStep f d)
        (0, |f - compute_cell_center_fraction 0 d|)).2
      = |f - compute_cell_center_fraction
          ((List.range n).foldl (nearestStep f d)
            (0, |f - compute_cell_center_fraction 0 d|)).1 d|
    ∧ (((List.range n).foldl (nearestStep f d)
        (0, |f - compute_cell_center_fraction 0 d|)).1 = 0
      ∨ ((List.range n).foldl (nearestStep f d)
          (0, |f - compute_cell_center_fraction 0 d|)).1 < n)
    ∧ (∀ j < n,
        ((List.range n).foldl (nearestStep f d)
            (0, |f - compute_cell_center_fraction 0 d|)).2
          ≤ |f - compute_cell_center_fraction j d|)
    ∧ (∀ j < ((List.range n).foldl (nearestStep f d)
        (0, |f - compute_cell_center_fraction 0 d|)).1,
        ((List.range n).foldl (nearestStep f d)
            (0, |f - compute_cell_center_fraction 0 d|)).2
          < |f - compute_cell_center_fraction j d|) := by
  induction n with
  | zero =>
    refine ⟨rfl, Or.inl rfl, ?_, ?_⟩
    · intro j hj
      omega
    · intro j hj
      simp at hj
  | succ n ih =>
    obtain ⟨ih1, ih2, ih3, ih4⟩ := ih
    rw [List.range_succ, List.foldl_append, List.foldl_cons, List.foldl_nil]
    set r := (List.range n).foldl (nearestStep f d)
      (0, |f - compute_cell_center_fraction 0 d|) with hr
    show (nearestStep f d r n).2 = _ ∧ _
    unfold nearestStep
    by_cases hlt : |f - compute_cell_center_fraction n d| < r.2
    · rw [if_pos hlt]
      refine ⟨rfl, Or.inr (Nat.lt_succ_self n), ?_, ?_⟩
      · intro j hj
        rcases Nat.lt_succ_iff_lt_or_eq.mp hj with hj' | hj'
        · exact le_of_lt (lt_of_lt_of_le hlt (ih3 j hj'))
        · subst hj'
          exact le_refl _
      · intro j hj
        exact lt_of_lt_of_le hlt (ih3 j hj)
    · rw [if_neg hlt]
      refine ⟨ih1, ?_, ?_, ih4⟩
      · rcases ih2 with h | h
        · exact Or.inl h
        · exact Or.inr (Nat.lt_succ_of_lt h)
      · intro j hj
        rcases Nat.lt_succ_iff_lt_or_eq.mp hj with hj' | hj'
        · exact ih3 j hj'
        · subst hj'
          exact not_lt.mp hlt

/-- Characterization of `find_nearest_cell` for a positive dimension: the
result is in bounds, its center is (weakly) nearest to the fraction, and
every lower index is strictly farther (lowest index wins ties). -/
theorem find_nearest_cell_spec (f : ℚ) (d : Nat) (hd : 1 ≤ d) :
    find_nearest_cell f d < d
    ∧ (∀ j < d,
        |f - compute_cell_center_fraction (find_nearest_cell f d) d|
          ≤ |f - compute_cell_center_fraction j d|)
    ∧ (∀ j < find_nearest_cell f d,
        |f - compute_cell_center_fraction (find_nearest_cell f d) d|
          < |f - compute_cell_center_fraction j d|) := by
  unfold find_nearest_cell
  by_cases hd1 : d = 1
  · subst hd1
    rw [if_pos rfl]
    refine ⟨Nat.one_pos, ?_, ?_⟩
    · intro j hj
      interval_cases j
      exact le_refl _
    · intro j hj
      omega
  · rw [if_neg hd1]
    obtain ⟨h1, h2, h3, h4⟩ := nearest_fold_spec f d d
    refine ⟨?_, ?_, ?_⟩
    · rcases h2 with h | h
      · rw [h]
        omega
      · exact h
    · intro j hj
      rw [← h1]
      exact h3 j hj
    · intro j hj
      rw [← h1]
      exact h4 j hj

/-- Feeding a cell center to `find_nearest_cell` recovers that cell's index
exactly. -/
theorem find_nearest_center (i d : Nat) (hd : 1 ≤ d) (hi : i < d) :
    find_nearest_cell (compute_cell_center_fraction i d) d = i := by
  obtain ⟨hb, hmin, _⟩ :=
    find_nearest_cell_spec (compute_cell_center_fraction i d) d hd
  have hzero : |compute_cell_center_fraction i d
      - compute_cell_center_fraction i d| = 0 := by
    simp
  have hk := hmin i hi
  rw [hzero] at hk
  have habs : |compute_cell_center_fraction i d
      - compute_cell_center_fraction
          (find_nearest_cell (compute_cell_center_fraction i d) d) d| = 0 :=
    le_antisymm hk (abs_nonneg _)
  rw [abs_eq_zero, sub_eq_zero] at habs
  unfold compute_cell_center_fraction at habs
  field_simp at habs
  exact habs.symm

end AncestorEntry

namespace AncestorEntry

open Paragrid

/-- C5: mapping a fraction in `[0,1]` through a parent cell's extent and back
to the child is exactly the identity (no drift); composing the forward maps of
any valid hop chain and then the matching inverse maps is the identity on
`[0,1]`; and at chain depth 1 a cell-center fraction maps back to the same
cell index. -/
theorem fraction_roundtrip (f : ℚ) (d i : Nat) (hops : List (Nat × Nat))
    (h0 : 0 ≤ f) (h1 : f ≤ 1)
    (hh : ∀ p ∈ hops, 1 ≤ p.2 ∧ p.1 < p.2)
    (hd : 1 ≤ d) (hi : i < d) :
    map_fraction_to_child (map_fraction_through_parent f i d) i d = f
    ∧ applyInverseChain hops (applyForwardChain hops f) = f
    ∧ (∀ j D : Nat, 1 ≤ D → j < D →
        find_nearest_cell
          (map_fraction_to_child
            (map_fraction_through_parent
              (compute_cell_center_fraction i d) j D) j D) d = i) := by
  refine ⟨map_roundtrip f i d hd hi h0 h1,
    chain_roundtrip_aux hops hh f h0 h1, ?_⟩
  intro j D hD hj
  obtain ⟨hc0, hc1⟩ := center_mem i d hi
  rw [map_roundtrip (compute_cell_center_fraction i d) j D hD hj hc0 hc1]
  exact find_nearest_center i d hd hi

/-- Witness for `fraction_roundtrip` at `f = 1/3`, `d = 3`, `i = 1`, one-hop
chain `[(0, 2)]`. -/
theorem fraction_roundtrip_witness :
    ((0 : ℚ) ≤ 1 / 3 ∧ (1 / 3 : ℚ) ≤ 1
      ∧ (∀ p ∈ [((0 : Nat), (2 : Nat))], 1 ≤ p.2 ∧ p.1 < p.2)
      ∧ (1 : Nat) ≤ 3 ∧ (1 : Nat) < 3)
    ∧ (map_fraction_to_child (map_fraction_through_parent (1 / 3) 1 3) 1 3
        = 1 / 3
      ∧ applyInverseChain [(0, 2)] (applyForwardChain [(0, 2)] (1 / 3)) = 1 / 3
      ∧ (∀ j D : Nat, 1 ≤ D → j < D →
          find_nearest_cell
            (map_fraction_to_child
              (map_fraction_through_parent
                (compute_cell_center_fraction 1 3) j D) j D) 3 = 1)) :=
  ⟨⟨by norm_num, by norm_num, by decide, by decide, by decide⟩,
    fraction_roundtrip (1 / 3) 3 1 [(0, 2)] (by norm_num) (by norm_num)
      (by decide) (by decide) (by decide)⟩

/-- C9: for every dimension `d ≥ 1` and every rational fraction, including
fractions outside `[0,1]`, `find_nearest_cell` returns an index in
`[0, d-1]`; consequently whenever the entry computation
`compute_entry_from_ancestor_fraction` returns an index for a target grid of
dimension `d`, that index is in bounds. -/
theorem find_nearest_cell_in_bounds (f : ℚ) (d : Nat) (hd : 1 ≤ d) :
    find_nearest_cell f d < d
    ∧ (∀ (store : GridStore) (fn : FindPrimaryRefFn) (fuel : Nat)
        (target : String) (frac : ℚ) (attr : DimAttr) (anc : Option String)
        (k : Nat), dimOf store target attr = d
          → compute_entry_from_ancestor_fraction store fn fuel target frac
              attr anc = some k
          → k < d) := by
  refine ⟨(find_nearest_cell_spec f d hd).1, ?_⟩
  intro store fn fuel target frac attr anc k hdim h
  unfold compute_entry_from_ancestor_fraction at h
  cases hbp : buildRefPath store fn anc fuel target [] with
  | none =>
    rw [hbp] at h
    cases h
  | some p =>
    rw [hbp] at h
    simp only [Option.map_some'] at h
    have hk := Option.some_injective _ h
    rw [← hk, hdim]
    exact (find_nearest_cell_spec _ d hd).1

/-- Witness for `find_nearest_cell_in_bounds` at the out-of-range fraction 5
and dimension 3. -/
theorem find_nearest_cell_in_bounds_witness :
    (1 : Nat) ≤ 3 ∧ find_nearest_cell 5 3 < 3 :=
  ⟨by decide, (find_nearest_cell_in_bounds 5 3 (by decide)).1⟩

/-- C6 counterexample: at fraction `7/20` and a 1×3 target grid with an empty
hop chain, the code's conversion returns index 0 (the center 1/4 is nearest),
while the spec's floor-to-index conversion (`floor_to_index_spec`, modelled
from the spec's words) yields index 1 — so the final fraction is *not*
converted by floor-to-index. -/
theorem entry_index_not_floor_counterexample :
    compute_entry_from_ancestor_fraction Paragrid.storeRow3
        Paragrid.find_primary_ref 20 "main" (7 / 20) DimAttr.cols
        (some "main") = some 0
    ∧ floor_to_index_spec (7 / 20) 3 = 1
    ∧ (0 : Int) ≠ 1 := by
  refine ⟨?_, ?_, by decide⟩
  · norm_num [compute_entry_from_ancestor_fraction, buildRefPath,
      descendFraction, dimOf, storeGet, storeGet?, Paragrid.storeRow3,
      find_nearest_cell, nearestStep, compute_cell_center_fraction,
      List.range_succ, abs_of_nonneg, abs_sub_lt_iff, Grid.cols]
  · norm_num [floor_to_index_spec]

/-- C6 (amended): whenever `compute_entry_from_ancestor_fraction` returns an
index, that index is obtained from the inverse-mapped (descended) fraction by
the nearest-cell-center rule — it is in `[0, dimension-1]` and its center
`(k+1)/(dimension+1)` is at least as close to the descended fraction as any
other cell's center. -/
theorem entry_index_nearest_center (store : GridStore)
    (fn : FindPrimaryRefFn) (fuel : Nat) (target : String) (frac : ℚ)
    (attr : DimAttr) (anc : Option String) (k : Nat)
    (hd : 1 ≤ dimOf store target attr)
    (h : compute_entry_from_ancestor_fraction store fn fuel target frac attr
        anc = some k) :
    ∃ p, buildRefPath store fn anc fuel target [] = some p
      ∧ k = find_nearest_cell (descendFraction store attr p frac)
          (dimOf store target attr)
      ∧ k < dimOf store target attr
      ∧ ∀ j < dimOf store target attr,
          |descendFraction store attr p frac
            - compute_cell_center_fraction k (dimOf store target attr)|
          ≤ |descendFraction store attr p frac
            - compute_cell_center_fraction j (dimOf store target attr)| := by
  unfold compute_entry_from_ancestor_fraction at h
  cases hbp : buildRefPath store fn anc fuel target [] with
  | none =>
    rw [hbp] at h
    cases h
  | some p =>
    rw [hbp] at h
    simp only [Option.map_some'] at h
    have hk := (Option.some_injective _ h).symm
    obtain ⟨hb, hmin, _⟩ :=
      find_nearest_cell_spec (descendFraction store attr p frac)
        (dimOf store target attr) hd
    refine ⟨p, rfl, hk, ?_, ?_⟩
    · rw [hk]
      exact hb
    · intro j hj
      rw [hk]
      exact hmin j hj

/-- Witness for `entry_index_nearest_center` at the concrete 1×3 store. -/
theorem entry_index_nearest_center_witness :
    ((1 : Nat) ≤ dimOf Paragrid.storeRow3 "main" DimAttr.cols
      ∧ compute_entry_from_ancestor_fraction Paragrid.storeRow3
          Paragrid.find_primary_ref 20 "main" (7 / 20) DimAttr.cols
          (some "main") = some 0)
    ∧ (∃ p, buildRefPath Paragrid.storeRow3 Paragrid.find_primary_ref
          (some "main") 20 "main" [] = some p
        ∧ 0 = find_nearest_cell
            (descendFraction Paragrid.storeRow3 DimAttr.cols p (7 / 20))
            (dimOf Paragrid.storeRow3 "main" DimAttr.cols)
        ∧ 0 < dimOf Paragrid.storeRow3 "main" DimAttr.cols
        ∧ ∀ j < dimOf Paragrid.storeRow3 "main" DimAttr.cols,
            |descendFraction Paragrid.storeRow3 DimAttr.cols p (7 / 20)
              - compute_cell_center_fraction 0
                  (dimOf Paragrid.storeRow3 "main" DimAttr.cols)|
            ≤ |descendFraction Paragrid.storeRow3 DimAttr.cols p (7 / 20)
              - compute_cell_center_fraction j
                  (dimOf Paragrid.storeRow3 "main" DimAttr.cols)|) := by
  have h : compute_entry_from_ancestor_fraction Paragrid.storeRow3
      Paragrid.find_primary_ref 20 "main" (7 / 20) DimAttr.cols
      (some "main") = some 0 := by
    norm_num [compute_entry_from_ancestor_fraction, buildRefPath,
      descendFraction, dimOf, storeGet, storeGet?, Paragrid.storeRow3,
      find_nearest_cell, nearestStep, compute_cell_center_fraction,
      List.range_succ, abs_of_nonneg, abs_sub_lt_iff, Grid.cols]
  exact ⟨⟨by decide, h⟩,
    entry_index_nearest_center Paragrid.storeRow3 Paragrid.find_primary_ref
      20 "main" (7 / 20) DimAttr.cols (some "main") 0 (by decide) h⟩

end AncestorEntry
